import Mathlib

/-!
A verification development for the mlx-llm repository (src/llm/llama.py and
src/server/app.py), as a shallow embedding in Lean 4.

Embedding conventions:

- Machine floating point is idealized as exact rational arithmetic (`ℚ`).
  The scalar transcendental functions the code uses (`exp` inside softmax,
  `sigmoid` inside silu, `rsqrt` inside RMSNorm, `cos`/`sin` and the
  frequencies `theta ^ (-2 k / head_dim)` inside RoPE, and the attention
  scale `head_dim ** -0.5`) are abstracted into an `Ops` record: every
  theorem below is structural and holds for an arbitrary `Ops`.
- MLX's `create_additive_causal_mask` uses the additive constant `-1e9` on
  masked entries; in the floating-point dtypes the code runs in,
  `exp (s - 1e9)` underflows to exactly `0`, so a masked entry contributes
  exactly zero softmax weight.  We model a masked score as a dropped entry
  (`Option.none`) with `expOpt none = 0`, which is that exact behaviour.
- The batch axis is elided (the server always calls the model with batch
  size 1 via `y[None]`, and every operation in the model acts pointwise in
  the batch axis), so a hidden-state tensor is indexed by (position,
  feature) and a per-head tensor by (head, position, head-feature).
- Tensors are total functions from `ℕ` indices; the shape information the
  code keeps in `mx.array` shapes is carried separately (sequence lengths,
  the `n` field of a cache entry).  Out-of-range indices are never read by
  the stated theorems.
-/

/-- Abstracted scalar float operations (see the header): the embedding is
parametric in these, since their numeric values never matter for the
structural claims proved below. -/
structure Ops where
  exp : ℚ → ℚ
  sigmoid : ℚ → ℚ
  rsqrt : ℚ → ℚ
  cos : ℚ → ℚ
  sin : ℚ → ℚ
  /-- `head_dim ** -0.5`, as a function of `head_dim`. -/
  scale : ℕ → ℚ
  /-- RoPE frequency `base ^ (-2 k / dims)` as a function of
  (base, dims, pair index k). -/
  freq : ℕ → ℕ → ℕ → ℚ

/-- `exp` extended to masked-out scores: a masked score (the additive
`-1e9` of the causal mask, whose float `exp` underflows to exactly 0)
contributes weight 0. -/
def expOpt (ops : Ops) : Option ℚ → ℚ
  | none => 0
  | some t => ops.exp t

/-- A feature vector. -/
abbrev Vec := ℕ → ℚ

/-- A (position, feature) tensor: one batch element of a
`[batch, seq, features]` array. -/
abbrev Mat := ℕ → ℕ → ℚ

/-- A (head, position, head-feature) tensor: one batch element of a
`[batch, heads, seq, head_dim]` array. -/
abbrev HTen := ℕ → ℕ → ℕ → ℚ

/-- `nn.Linear(din, dout, bias=False)`: `y = x @ W.T` with `W : (dout, din)`. -/
def linear (W : Mat) (din : ℕ) (x : Vec) : Vec :=
  fun o => ∑ j ∈ Finset.range din, W o j * x j

/-- `RMSNorm.__call__`: `weight * (x * rsqrt(mean(x^2, -1) + eps))`.
The float32 upcast of the mean-square reduction is elided: all arithmetic
here is exact. -/
def rmsNorm (ops : Ops) (dims : ℕ) (eps : ℚ) (weight : Vec) (x : Vec) : Vec :=
  fun d => weight d * (x d * ops.rsqrt ((∑ j ∈ Finset.range dims, x j * x j) / (dims : ℚ) + eps))

/-- `nn.silu`: `z * sigmoid z`. -/
def silu (ops : Ops) (z : ℚ) : ℚ := z * ops.sigmoid z

/-- `ModelArgs` from src/llm/llama.py (defaults included).  The unused
`rope_scaling` field is omitted: no code in the repository reads it. -/
structure ModelArgs where
  hidden_size : ℕ := 4096
  num_attention_heads : ℕ := 32
  num_hidden_layers : ℕ := 32
  num_key_value_heads : ℕ := 32
  max_position_embeddings : ℕ := 4096
  rms_norm_eps : ℚ := 1 / 100000
  intermediate_size : ℕ := 11008
  vocab_size : ℕ := 32000
  rope_theta : ℕ := 10000

/-- `Attention.__init__`: `self.head_dim = args.hidden_size // args.num_attention_heads`. -/
def ModelArgs.head_dim (args : ModelArgs) : ℕ :=
  args.hidden_size / args.num_attention_heads

/-- `Attention.__init__`: `self.repeats = num_attention_heads // num_key_value_heads`. -/
def ModelArgs.repeats (args : ModelArgs) : ℕ :=
  args.num_attention_heads / args.num_key_value_heads

/-- The configuration invariants stated by the specification (§3, §8):
nonzero head counts, `hidden_size == num_attention_heads * head_dim`, and
`num_attention_heads % num_key_value_heads == 0`. -/
def validConfig (args : ModelArgs) : Prop :=
  0 < args.num_attention_heads ∧ 0 < args.num_key_value_heads ∧
  args.hidden_size = args.num_attention_heads * args.head_dim ∧
  args.num_attention_heads % args.num_key_value_heads = 0

instance (args : ModelArgs) : Decidable (validConfig args) := by
  unfold validConfig; infer_instance

/-- `FeedForward` weights. -/
structure FFW where
  gate_proj : Mat
  down_proj : Mat
  up_proj : Mat

/-- `FeedForward.__call__`: `down_proj(silu(gate_proj x) * up_proj x)`. -/
def feedForward (ops : Ops) (args : ModelArgs) (w : FFW) (x : Vec) : Vec :=
  linear w.down_proj args.intermediate_size
    (fun j => silu ops (linear w.gate_proj args.hidden_size x j) *
              linear w.up_proj args.hidden_size x j)

/-- One position of `nn.RoPE(dims, traditional=False, base)` at absolute
position `p`: feature `d < dims / 2` pairs with feature `d + dims / 2` and
the pair is rotated by the angle `p * base ^ (-2 d / dims)`. -/
def ropeAt (ops : Ops) (base dims p : ℕ) (x : Vec) : Vec :=
  fun d =>
    if d < dims / 2 then
      x d * ops.cos ((p : ℚ) * ops.freq base dims d) -
        x (d + dims / 2) * ops.sin ((p : ℚ) * ops.freq base dims d)
    else if d < dims then
      x (d - dims / 2) * ops.sin ((p : ℚ) * ops.freq base dims (d - dims / 2)) +
        x d * ops.cos ((p : ℚ) * ops.freq base dims (d - dims / 2))
    else x d

/-- `self.rope(a, offset)`: the sequence index `i` is encoded at absolute
position `offset + i`. -/
def rope (ops : Ops) (base dims offset : ℕ) (a : HTen) : HTen :=
  fun h i => ropeAt ops base dims (offset + i) (a h i)

/-- `Attention` projection weights. -/
structure AttnW where
  q_proj : Mat
  k_proj : Mat
  v_proj : Mat
  o_proj : Mat

/-- One per-layer KV cache entry: the pair of key/value tensors together
with their sequence length (`shape[2]` of the mlx arrays). -/
structure KVEntry where
  n : ℕ
  k : HTen
  v : HTen

/-- An additive attention mask, reduced to its support: `true` at `(i, j)`
means the additive `-1e9` entry (position `i` may not attend to `j`),
`false` means the additive `0` entry. -/
abbrev Mask := ℕ → ℕ → Bool

/-- `nn.MultiHeadAttention.create_additive_causal_mask(T)`:
`indices[:, None] < indices[None]`, i.e. entry `(i, j)` is masked iff
`i < j`.  (The `T × T` bound is carried by the callers; entries outside it
are never read.) -/
def causalMask : Mask := fun i j => decide (i < j)

/-- The mask built by `Llama.__call__`: a causal mask when the input
sequence length exceeds 1, and `None` otherwise. -/
def maskFor (T : ℕ) : Option Mask :=
  if 1 < T then some causalMask else none

/-- `scores = scores + mask` (when a mask is given), with the additive
`-1e9` entries represented as dropped (`none`) scores. -/
def maskApply (mask : Option Mask) (s : ℕ → ℚ) (i j : ℕ) : Option ℚ :=
  match mask with
  | some m => if m i j then none else some (s j)
  | none => some (s j)

/-- The rotary offset used by `Attention.__call__`:
`k_cache.shape[2]` when a cache is given, else `0`. -/
def cacheLen : Option KVEntry → ℕ
  | none => 0
  | some c => c.n

/-- `reshape(B, L, heads, head_dim).transpose(0, 2, 1, 3)` applied to a
projection output: head `h`, position `i`, feature `d` reads flat feature
`h * head_dim + d` of the projected position vector. -/
def projHeads (args : ModelArgs) (wp : Mat) (x : Mat) : HTen :=
  fun h i d => linear wp args.hidden_size (x i) (h * args.head_dim + d)

/-- `mx.concatenate([mx.expand_dims(a, 2)] * repeats, axis=2)`: `r` copies
of `a` stacked along a new axis, every slice equal to `a`. -/
def stackCopies (r : ℕ) (a : HTen) : ℕ → ℕ → ℕ → ℕ → ℚ :=
  fun g _j i d => a g i d

/-- The row-major `reshape([B, num_heads, L, -1])` collapsing the
(kv-head, copy) axes of the stacked tensor: flat head `h` reads stacked
index `(h / r, h % r)`. -/
def reshapeHeads (r : ℕ) (s : ℕ → ℕ → ℕ → ℕ → ℚ) : HTen :=
  fun h i d => s (h / r) (h % r) i d

/-- `repeat(a)` from `Attention.__call__`: stack `repeats` copies along a
new axis 2, then reshape to `[B, num_attention_heads, L, -1]`. -/
def repeatKV (r : ℕ) (a : HTen) : HTen :=
  reshapeHeads r (stackCopies r a)

/-- `mx.concatenate([a, b], axis=2)` along the sequence axis, where `a`
has sequence length `n`. -/
def concatSeq (n : ℕ) (a b : HTen) : HTen :=
  fun h j d => if j < n then a h j d else b h (j - n) d

/-- The freshly computed (repeated, rotary-encoded) keys of this call:
`self.rope(repeat(k), offset=cacheLen cache)`. -/
def attnNewK (ops : Ops) (args : ModelArgs) (w : AttnW) (x : Mat)
    (cache : Option KVEntry) : HTen :=
  rope ops args.rope_theta args.head_dim (cacheLen cache)
    (repeatKV args.repeats (projHeads args w.k_proj x))

/-- The freshly computed (repeated) values of this call: `repeat(v)`. -/
def attnNewV (args : ModelArgs) (w : AttnW) (x : Mat) : HTen :=
  repeatKV args.repeats (projHeads args w.v_proj x)

/-- The rotary-encoded queries: `self.rope(q, offset=cacheLen cache)`. -/
def attnQ (ops : Ops) (args : ModelArgs) (w : AttnW) (x : Mat)
    (cache : Option KVEntry) : HTen :=
  rope ops args.rope_theta args.head_dim (cacheLen cache)
    (projHeads args w.q_proj x)

/-- The full key context: `mx.concatenate([k_cache, k], axis=2)` when a
cache is given, else the fresh keys. -/
def attnK (ops : Ops) (args : ModelArgs) (w : AttnW) (x : Mat)
    (cache : Option KVEntry) : HTen :=
  match cache with
  | some c => concatSeq c.n c.k (attnNewK ops args w x (some c))
  | none => attnNewK ops args w x none

/-- The full value context: `mx.concatenate([v_cache, v], axis=2)` when a
cache is given, else the fresh values. -/
def attnV (args : ModelArgs) (w : AttnW) (x : Mat)
    (cache : Option KVEntry) : HTen :=
  match cache with
  | some c => concatSeq c.n c.v (attnNewV args w x)
  | none => attnNewV args w x

/-- `scores = (q * self.scale) @ k.transpose(0, 1, 3, 2)`. -/
def attnScores (ops : Ops) (args : ModelArgs) (w : AttnW) (x : Mat)
    (cache : Option KVEntry) : ℕ → ℕ → ℕ → ℚ :=
  fun h i j => ∑ d ∈ Finset.range args.head_dim,
    attnQ ops args w x cache h i d * ops.scale args.head_dim *
      attnK ops args w x cache h j d

/-- The scores after the optional additive mask. -/
def attnMS (ops : Ops) (args : ModelArgs) (w : AttnW) (x : Mat)
    (mask : Option Mask) (cache : Option KVEntry) : ℕ → ℕ → ℕ → Option ℚ :=
  fun h i j => maskApply mask (fun j2 => attnScores ops args w x cache h i j2) i j

/-- The softmax denominator of one attention row (softmax is taken along
the last axis, over the full key context length `cacheLen cache + L`). -/
def attnDenom (ops : Ops) (args : ModelArgs) (w : AttnW) (L : ℕ) (x : Mat)
    (mask : Option Mask) (cache : Option KVEntry) : ℕ → ℕ → ℚ :=
  fun h i => ∑ j ∈ Finset.range (cacheLen cache + L),
    expOpt ops (attnMS ops args w x mask cache h i j)

/-- One softmax weight: `mx.softmax(scores, axis=-1)`.  The float32 upcast
is elided (exact arithmetic). -/
def attnWgt (ops : Ops) (args : ModelArgs) (w : AttnW) (L : ℕ) (x : Mat)
    (mask : Option Mask) (cache : Option KVEntry) : ℕ → ℕ → ℕ → ℚ :=
  fun h i j => expOpt ops (attnMS ops args w x mask cache h i j) /
    attnDenom ops args w L x mask cache h i

/-- `scores @ v` (per head). -/
def attnOutH (ops : Ops) (args : ModelArgs) (w : AttnW) (L : ℕ) (x : Mat)
    (mask : Option Mask) (cache : Option KVEntry) : HTen :=
  fun h i d => ∑ j ∈ Finset.range (cacheLen cache + L),
    attnWgt ops args w L x mask cache h i j * attnV args w x cache h j d

/-- `Attention.__call__`: returns the output
`o_proj((scores @ v).transpose(0, 2, 1, 3).reshape(B, L, hidden))` and the
new cache entry `(k, v)` (the concatenated key/value context, of sequence
length `cacheLen cache + L`). -/
def attnCall (ops : Ops) (args : ModelArgs) (w : AttnW) (L : ℕ) (x : Mat)
    (mask : Option Mask) (cache : Option KVEntry) : Mat × KVEntry :=
  (fun i => linear w.o_proj (args.num_attention_heads * args.head_dim)
      (fun f => attnOutH ops args w L x mask cache (f / args.head_dim) i (f % args.head_dim)),
   ⟨cacheLen cache + L, attnK ops args w x cache, attnV args w x cache⟩)

/-- `TransformerBlock` weights. -/
structure BlockW where
  self_attn : AttnW
  mlp : FFW
  input_layernorm : Vec
  post_attention_layernorm : Vec

/-- `TransformerBlock.__call__`:
`r, cache = self_attn(input_layernorm(x), mask, cache); h = x + r;
out = h + mlp(post_attention_layernorm(h))`. -/
def blockCall (ops : Ops) (args : ModelArgs) (w : BlockW) (L : ℕ) (x : Mat)
    (mask : Option Mask) (cache : Option KVEntry) : Mat × KVEntry :=
  let r := attnCall ops args w.self_attn L
    (fun i => rmsNorm ops args.hidden_size args.rms_norm_eps w.input_layernorm (x i))
    mask cache
  let h : Mat := fun i d => x i d + r.1 i d
  (fun i d => h i d +
     feedForward ops args w.mlp
       (rmsNorm ops args.hidden_size args.rms_norm_eps w.post_attention_layernorm (h i)) d,
   r.2)

/-- `Llama` weights: token embedding, the list of decoder blocks, the
final norm weight and the output head. -/
structure LlamaW where
  embed_tokens : ℕ → Vec
  layers : List BlockW
  norm : Vec
  lm_head : Mat

/-- The layer loop of `Llama.__call__`: each layer consumes its slot of
the cache list and produces the updated slot. -/
def runLayers (ops : Ops) (args : ModelArgs) :
    List BlockW → List (Option KVEntry) → ℕ → Mat → Option Mask → Mat × List KVEntry
  | [], _cs, _L, x, _mask => (x, [])
  | b :: bs, cs, L, x, mask =>
      let r := blockCall ops args b L x mask (cs.headD none)
      let rest := runLayers ops args bs cs.tail L r.1 mask
      (rest.1, r.2 :: rest.2)

/-- `Llama.__call__`: embed the tokens, rebuild the mask (the supplied
`mask0` argument is unconditionally overwritten by `mask = None` before
use), default the cache list to `[None] * len(layers)`, run the layers,
apply the final norm and `lm_head`. -/
def llamaCall (ops : Ops) (args : ModelArgs) (w : LlamaW) (ts : List ℕ)
    (mask0 : Option Mask) (cache : Option (List KVEntry)) : Mat × List KVEntry :=
  let x : Mat := fun i => w.embed_tokens (ts.getD i 0)
  let mask : Option Mask := maskFor ts.length
  let caches : List (Option KVEntry) :=
    match cache with
    | none => List.replicate w.layers.length none
    | some l => l.map some
  let r := runLayers ops args w.layers caches ts.length x mask
  (fun i => linear w.lm_head args.hidden_size
      (rmsNorm ops args.hidden_size args.rms_norm_eps w.norm (r.1 i)), r.2)

/-- `mx.argmax` over the first `n` entries of a vector, NumPy-compatible:
the lowest index attaining the maximum (a later entry replaces the current
best only when strictly greater). -/
def argmaxIdx (f : ℕ → ℚ) : ℕ → ℕ
  | 0 => 0
  | n + 1 => if f (argmaxIdx f n) < f n then n else argmaxIdx f n

/-- The `sample` closure of `generate`: greedy argmax at `temp == 0`, else
`mx.random.categorical(logits * (1/temp))`.  The stochastic categorical
primitive is abstracted as the supplied `rand` draw. -/
def sample (rand : (ℕ → ℚ) → ℕ) (temp : ℚ) (n : ℕ) (logits : ℕ → ℚ) : ℕ :=
  if temp = 0 then argmaxIdx logits n else rand (fun t => logits t * (1 / temp))

/-- The loop state of `generate`: the array `y` fed to the model next
(the prompt initially, then the single sampled token) and the carried
cache. -/
structure GenState where
  y : List ℕ
  cache : Option (List KVEntry)

/-- One iteration of the `while True` body of `generate`:
`logits, cache = model(y[None], cache=cache); logits = logits[:, -1, :];
y = sample(logits); yield y`.  The `Option` result is how a Python
generator could stop; this body always yields. -/
def genStep (ops : Ops) (args : ModelArgs) (w : LlamaW)
    (rand : (ℕ → ℚ) → ℕ) (temp : ℚ) (s : GenState) : Option (ℕ × GenState) :=
  let r := llamaCall ops args w s.y none s.cache
  let tok := sample rand temp args.vocab_size (fun t => r.1 (s.y.length - 1) t)
  some (tok, ⟨[tok], some r.2⟩)

/-- The stream of `generate`: the `n`-th yielded token together with the
loop state carried past it.  `rand` supplies the categorical draw used at
each step (the RNG stream). -/
def genTrace (ops : Ops) (args : ModelArgs) (w : LlamaW)
    (rand : ℕ → (ℕ → ℚ) → ℕ) (temp : ℚ) (prompt : List ℕ) :
    ℕ → Option (ℕ × GenState)
  | 0 => genStep ops args w (rand 0) temp ⟨prompt, none⟩
  | n + 1 => Option.bind (genTrace ops args w rand temp prompt n)
      (fun p => genStep ops args w (rand (n + 1)) temp p.2)

/-- The shape data `Attention.__init__` computes.  Python integer division
is `Nat` division; it raises only on a zero divisor. -/
structure AttnShape where
  hidden_size : ℕ
  num_attention_heads : ℕ
  num_key_value_heads : ℕ
  repeats : ℕ
  head_dim : ℕ

/-- `Attention.__init__`: computes `repeats = heads // kv_heads` and
`head_dim = hidden_size // heads` with no validation of any config
invariant; the only possible construction-time failure is the
`ZeroDivisionError` of a zero head count. -/
def attnConstruct (args : ModelArgs) : Option AttnShape :=
  if args.num_key_value_heads = 0 then none
  else if args.num_attention_heads = 0 then none
  else some
    { hidden_size := args.hidden_size
      num_attention_heads := args.num_attention_heads
      num_key_value_heads := args.num_key_value_heads
      repeats := args.num_attention_heads / args.num_key_value_heads
      head_dim := args.hidden_size / args.num_attention_heads }

/-- `Llama.__init__`: builds `num_hidden_layers` `TransformerBlock`s (each
constructing one `Attention`); with zero layers no `Attention` is ever
constructed, so nothing can fail. -/
def llamaConstruct (args : ModelArgs) : Option (List AttnShape) :=
  if args.num_hidden_layers = 0 then some []
  else (attnConstruct args).map (List.replicate args.num_hidden_layers)

/-- A config violating both spec invariants: `hidden_size = 5` is not
`num_attention_heads * head_dim = 2 * 2`, yet head counts are nonzero. -/
def cfgBad : ModelArgs :=
  { hidden_size := 5, num_attention_heads := 2, num_hidden_layers := 2,
    num_key_value_heads := 2, max_position_embeddings := 16,
    rms_norm_eps := 1 / 100000, intermediate_size := 7, vocab_size := 11,
    rope_theta := 10000 }

/-- The two locks of the access arbiter. -/
inductive LockId where
  | outer
  | inner
deriving DecidableEq

/-- A lock acquisition or release event. -/
inductive LockEvent where
  | acq (l : LockId)
  | rel (l : LockId)
deriving DecidableEq

/-- Whether `llama_inner_lock.acquire()` completes or raises. -/
inductive InnerAcquire where
  | ok
  | raises
deriving DecidableEq

/-- How the `yield _llama_model` region of `get_llama_model` ends: the
consumer finishes normally, generation raises, or the consumer abandons
the generator early (`GeneratorExit`). -/
inductive BodyOutcome where
  | completed
  | raised
  | closed
deriving DecidableEq

/-- The lock events of one execution of `get_llama_model`, translated from
its `try`/`finally` structure:
`outer.acquire(); release_outer = True;
try: inner.acquire();
     try: outer.release(); release_outer = False; yield model
     finally: inner.release()
finally: if release_outer: outer.release()`.
The `yield` region performs no lock operation itself in any of its three
outcomes; the inner `finally` runs in all three. -/
def getLlamaModelEvents (ia : InnerAcquire) (b : BodyOutcome) : List LockEvent :=
  let innerPart : List LockEvent × Bool :=
    match ia with
    | .raises => ([], true)
    | .ok =>
        let bodyEvents : List LockEvent :=
          match b with
          | .completed => [LockEvent.rel .outer]
          | .raised => [LockEvent.rel .outer]
          | .closed => [LockEvent.rel .outer]
        (LockEvent.acq .inner :: bodyEvents ++ [LockEvent.rel .inner], false)
  LockEvent.acq .outer :: innerPart.1 ++
    (if innerPart.2 then [LockEvent.rel .outer] else [])

/-- Net hold count of lock `l` after a list of events. -/
def heldCount (tr : List LockEvent) (l : LockId) : ℤ :=
  tr.foldl
    (fun acc e =>
      match e with
      | .acq l2 => if l2 = l then acc + 1 else acc
      | .rel l2 => if l2 = l then acc - 1 else acc) 0

/-- The program counter of one request in the §4.9 acquire protocol. -/
inductive PC where
  | start
  | waitInner
  | holdBoth
  | executing
  | done
deriving DecidableEq

/-- A request holds the outer (admission) lock from its `outer.acquire()`
until its `outer.release()`. -/
def holdsOuter : PC → Bool
  | .waitInner => true
  | .holdBoth => true
  | _ => false

/-- A request holds the inner (execution) lock from its `inner.acquire()`
until its `inner.release()`. -/
def holdsInner : PC → Bool
  | .holdBoth => true
  | .executing => true
  | _ => false

/-- Pointwise update of a program-counter assignment. -/
def updPC {R : Type} [DecidableEq R] (s : R → PC) (r : R) (p : PC) : R → PC :=
  fun r2 => if r2 = r then p else s r2

/-- The interleaving semantics of the two-lock turnstile: request `r`
acquires the outer lock (enabled only when nobody holds it), then the
inner lock (enabled only when nobody holds it), then releases the outer
lock, and finally releases the inner lock. -/
inductive ArbStep (R : Type) [DecidableEq R] : R → (R → PC) → (R → PC) → Prop where
  | acquireOuter (s : R → PC) (r : R) :
      s r = .start → (∀ r2, holdsOuter (s r2) = false) →
      ArbStep R r s (updPC s r .waitInner)
  | acquireInner (s : R → PC) (r : R) :
      s r = .waitInner → (∀ r2, holdsInner (s r2) = false) →
      ArbStep R r s (updPC s r .holdBoth)
  | releaseOuter (s : R → PC) (r : R) :
      s r = .holdBoth → ArbStep R r s (updPC s r .executing)
  | releaseInner (s : R → PC) (r : R) :
      s r = .executing → ArbStep R r s (updPC s r .done)

/-- States reachable from all requests idle. -/
inductive ArbReachable (R : Type) [DecidableEq R] : (R → PC) → Prop where
  | init : ArbReachable R (fun _ => .start)
  | step (s s2 : R → PC) (r : R) :
      ArbReachable R s → ArbStep R r s s2 → ArbReachable R s2

/-- Trivial concrete operations for witnesses. -/
def opsW : Ops :=
  { exp := fun _ => 1, sigmoid := fun q => q, rsqrt := fun _ => 1,
    cos := fun _ => 1, sin := fun _ => 0, scale := fun _ => 1,
    freq := fun _ _ _ => 0 }

/-- A tiny concrete valid config for witnesses. -/
def argsW : ModelArgs :=
  { hidden_size := 2, num_attention_heads := 2, num_hidden_layers := 1,
    num_key_value_heads := 1, max_position_embeddings := 8,
    rms_norm_eps := 1 / 100000, intermediate_size := 2, vocab_size := 3,
    rope_theta := 10000 }

/-- Constant-one weights of `argsW` shape, for witnesses. -/
def wW : LlamaW :=
  { embed_tokens := fun _ _ => 1,
    layers := [{ self_attn := { q_proj := fun _ _ => 1, k_proj := fun _ _ => 1,
                                v_proj := fun _ _ => 1, o_proj := fun _ _ => 1 },
                 mlp := { gate_proj := fun _ _ => 1, down_proj := fun _ _ => 1,
                          up_proj := fun _ _ => 1 },
                 input_layernorm := fun _ => 1,
                 post_attention_layernorm := fun _ => 1 }],
    norm := fun _ => 1,
    lm_head := fun _ _ => 1 }

/-- A zero-layer concrete config (generation witnesses evaluate quickly). -/
def argsW0 : ModelArgs :=
  { hidden_size := 1, num_attention_heads := 1, num_hidden_layers := 0,
    num_key_value_heads := 1, max_position_embeddings := 8,
    rms_norm_eps := 0, intermediate_size := 1, vocab_size := 1,
    rope_theta := 1 }

/-- Weights of `argsW0` shape. -/
def wW0 : LlamaW :=
  { embed_tokens := fun _ _ => 1, layers := [], norm := fun _ => 1,
    lm_head := fun _ _ => 1 }

/-- Constant-one attention weights for witnesses. -/
def wAW : AttnW :=
  { q_proj := fun _ _ => 1, k_proj := fun _ _ => 1,
    v_proj := fun _ _ => 1, o_proj := fun _ _ => 1 }

/-- A length-one all-zero cache entry for witnesses. -/
def cW : KVEntry :=
  { n := 1, k := fun _ _ _ => 0, v := fun _ _ _ => 0 }

/-- A trivial random stream for witnesses. -/
def randW : ℕ → (ℕ → ℚ) → ℕ := fun _ _ => 0

/-- The token yielded by the first step of the witness generation trace. -/
def tokW : ℕ :=
  sample (randW 0) 0 argsW0.vocab_size
    (fun t => (llamaCall opsW argsW0 wW0 [5] none none).1 (([5] : List ℕ).length - 1) t)

/-- The loop state carried past the first step of the witness generation
trace. -/
def sW : GenState :=
  ⟨[tokW], some (llamaCall opsW argsW0 wW0 [5] none none).2⟩

/-! ## Generic helper lemmas -/

/-- Dropping a vanishing tail of a range sum. -/
theorem sum_range_drop_tail (F : ℕ → ℚ) (a b : ℕ) (hab : a ≤ b)
    (h : ∀ j, a ≤ j → j < b → F j = 0) :
    ∑ j ∈ Finset.range b, F j = ∑ j ∈ Finset.range a, F j := by
  refine (Finset.sum_subset (Finset.range_subset.mpr hab) ?_).symm
  intro x hx hnx
  exact h x (Nat.le_of_not_lt (by simpa using hnx)) (by simpa using hx)

/-! ## C10: the mask argument of the decoder stack is dead -/

/-- C10: `Llama.__call__` unconditionally overwrites its `mask` parameter
(`mask = None` before first use), so the supplied mask has no effect on
the result: any two mask arguments give identical outputs and caches. -/
theorem mask_argument_ignored (ops : Ops) (args : ModelArgs) (w : LlamaW)
    (ts : List ℕ) (cache : Option (List KVEntry)) (m1 m2 : Option Mask) :
    llamaCall ops args w ts m1 cache = llamaCall ops args w ts m2 cache := rfl

/-! ## C3: grouped-query head expansion is a contiguous-block repeat -/

/-- C3: with `r = num_attention_heads / num_key_value_heads`, the
stack-and-reshape `repeat` of `Attention.__call__` places original
key/value head `g` at expanded heads `g*r .. g*r+r-1` (a contiguous-block
repeat), so query head `h` attends to key/value head `h / r`. -/
theorem gqa_head_expansion (args : ModelArgs) (a : HTen)
    (hlt : args.num_key_value_heads < args.num_attention_heads)
    (hdvd : args.num_key_value_heads ∣ args.num_attention_heads)
    (hpos : 0 < args.num_key_value_heads) :
    (∀ g j i d, j < args.repeats →
        repeatKV args.repeats a (g * args.repeats + j) i d = a g i d) ∧
    (∀ h i d, repeatKV args.repeats a h i d = a (h / args.repeats) i d) := by
  have hr : 0 < args.repeats := Nat.div_pos (Nat.le_of_lt hlt) hpos
  refine ⟨?_, ?_⟩
  · intro g j i d hj
    show stackCopies args.repeats a ((g * args.repeats + j) / args.repeats)
      ((g * args.repeats + j) % args.repeats) i d = a g i d
    have hdiv : (g * args.repeats + j) / args.repeats = g := by
      rw [Nat.mul_comm, Nat.mul_add_div hr, Nat.div_eq_of_lt hj, Nat.add_zero]
    rw [hdiv]
    rfl
  · intro h i d
    rfl

/-- Witness for C3 at the concrete config `argsW` (4 vs 2 heads would also
do; `argsW` has 2 query heads grouped onto 1 key/value head). -/
theorem gqa_head_expansion_witness :
    (argsW.num_key_value_heads < argsW.num_attention_heads ∧
     argsW.num_key_value_heads ∣ argsW.num_attention_heads ∧
     0 < argsW.num_key_value_heads) ∧
    ((∀ g j i d, j < argsW.repeats →
        repeatKV argsW.repeats (fun _ _ _ => (0 : ℚ)) (g * argsW.repeats + j) i d =
          (fun _ _ _ => (0 : ℚ)) g i d) ∧
     (∀ h i d, repeatKV argsW.repeats (fun _ _ _ => (0 : ℚ)) h i d =
        (fun _ _ _ => (0 : ℚ)) (h / argsW.repeats) i d)) :=
  ⟨⟨by decide, by decide, by decide⟩,
   gqa_head_expansion argsW (fun _ _ _ => 0) (by decide) (by decide) (by decide)⟩

/-! ## C5: there is no construction-time config validation -/

/-- C5 counterexample: `cfgBad` violates the invariant
`hidden_size == num_attention_heads * head_dim` (5 ≠ 2 * 2), yet
constructing the model succeeds (and it does construct layers), refuting
the claim that a violating config fails at construction time. -/
theorem config_validation_counterexample :
    (llamaConstruct cfgBad).isSome = true ∧
    cfgBad.hidden_size ≠ cfgBad.num_attention_heads * cfgBad.head_dim ∧
    0 < cfgBad.num_hidden_layers := by decide

/-- C5 amended: construction performs no invariant validation.  It
succeeds exactly when no `ZeroDivisionError` occurs, i.e. when no layer is
built or both head counts are nonzero — regardless of the divisibility and
hidden-size invariants. -/
theorem config_construction_never_validates (args : ModelArgs) :
    (llamaConstruct args).isSome = true ↔
      (args.num_hidden_layers = 0 ∨
       (args.num_attention_heads ≠ 0 ∧ args.num_key_value_heads ≠ 0)) := by
  unfold llamaConstruct attnConstruct
  by_cases h0 : args.num_hidden_layers = 0
  · simp [h0]
  · by_cases h1 : args.num_key_value_heads = 0
    · simp [h0, h1]
    · by_cases h2 : args.num_attention_heads = 0
      · simp [h0, h1, h2]
      · simp [h0, h1, h2]

/-! ## C8: temperature-zero sampling is first-index argmax -/

/-- `argmaxIdx` stays in range. -/
theorem argmaxIdx_lt (f : ℕ → ℚ) : ∀ n, 0 < n → argmaxIdx f n < n := by
  intro n
  induction n with
  | zero => intro h; exact absurd h (by decide)
  | succ n ih =>
    intro _
    simp only [argmaxIdx]
    by_cases hc : f (argmaxIdx f n) < f n
    · rw [if_pos hc]; omega
    · rw [if_neg hc]
      rcases Nat.eq_zero_or_pos n with h0 | hpos
      · subst h0
        exact Nat.zero_lt_one
      · exact Nat.lt_succ_of_lt (ih hpos)

/-- `argmaxIdx` attains the maximum. -/
theorem argmaxIdx_le (f : ℕ → ℚ) : ∀ n j, j < n → f j ≤ f (argmaxIdx f n) := by
  intro n
  induction n with
  | zero => intro j hj; exact absurd hj (by omega)
  | succ n ih =>
    intro j hj
    simp only [argmaxIdx]
    by_cases hc : f (argmaxIdx f n) < f n
    · rw [if_pos hc]
      rcases Nat.lt_succ_iff_lt_or_eq.mp hj with h | h
      · exact le_of_lt (lt_of_le_of_lt (ih j h) hc)
      · subst h; exact le_refl _
    · rw [if_neg hc]
      rcases Nat.lt_succ_iff_lt_or_eq.mp hj with h | h
      · exact ih j h
      · subst h; exact le_of_not_lt hc

/-- Every index below `argmaxIdx` is strictly smaller: ties are broken by
the lowest index. -/
theorem argmaxIdx_first (f : ℕ → ℚ) : ∀ n j, j < argmaxIdx f n → f j < f (argmaxIdx f n) := by
  intro n
  induction n with
  | zero =>
    intro j hj
    exact absurd hj (by simp [argmaxIdx])
  | succ n ih =>
    intro j hj
    simp only [argmaxIdx] at hj ⊢
    by_cases hc : f (argmaxIdx f n) < f n
    · rw [if_pos hc] at hj ⊢
      exact lt_of_le_of_lt (argmaxIdx_le f n j hj) hc
    · rw [if_neg hc] at hj ⊢
      exact ih j hj

/-- C8: with `temp == 0` the `sample` closure of `generate` is the
deterministic first-index argmax over the vocabulary: it ignores the
random draw entirely, returns an in-range index attaining the maximum
logit, every earlier index is strictly smaller (lowest-index tie-break),
and two calls with different random sources agree. -/
theorem sampling_temp_zero_argmax (rand rand2 : (ℕ → ℚ) → ℕ) (n : ℕ)
    (logits : ℕ → ℚ) (hn : 0 < n) :
    sample rand 0 n logits = argmaxIdx logits n ∧
    sample rand 0 n logits < n ∧
    (∀ j, j < n → logits j ≤ logits (sample rand 0 n logits)) ∧
    (∀ j, j < sample rand 0 n logits → logits j < logits (sample rand 0 n logits)) ∧
    sample rand 0 n logits = sample rand2 0 n logits := by
  have hs : ∀ r : (ℕ → ℚ) → ℕ, sample r 0 n logits = argmaxIdx logits n := by
    intro r; simp [sample]
  refine ⟨hs rand, ?_, ?_, ?_, ?_⟩
  · rw [hs rand]; exact argmaxIdx_lt logits n hn
  · intro j hj; rw [hs rand]; exact argmaxIdx_le logits n j hj
  · intro j hj
    rw [hs rand] at hj ⊢
    exact argmaxIdx_first logits n j hj
  · rw [hs rand, hs rand2]

/-- Witness for C8 on the concrete logits `j ↦ j` over 3 entries. -/
theorem sampling_temp_zero_argmax_witness :
    (0 < 3) ∧
    (sample (fun _ => 7) 0 3 (fun j => (j : ℚ)) = argmaxIdx (fun j => (j : ℚ)) 3 ∧
     sample (fun _ => 7) 0 3 (fun j => (j : ℚ)) < 3 ∧
     (∀ j : ℕ, j < 3 → (j : ℚ) ≤ ((sample (fun _ => 7) 0 3 (fun j => (j : ℚ)) : ℕ) : ℚ)) ∧
     (∀ j : ℕ, j < sample (fun _ => 7) 0 3 (fun j => (j : ℚ)) →
        (j : ℚ) < ((sample (fun _ => 7) 0 3 (fun j => (j : ℚ)) : ℕ) : ℚ)) ∧
     sample (fun _ => 7) 0 3 (fun j => (j : ℚ)) = sample (fun _ => 8) 0 3 (fun j => (j : ℚ))) :=
  ⟨by decide, sampling_temp_zero_argmax (fun _ => 7) (fun _ => 8) 3 (fun j => (j : ℚ)) (by decide)⟩

/-! ## C6: every exit path of `get_llama_model` releases its locks -/

/-- C6: on every exit path of `get_llama_model` — inner-lock acquisition
failure, and each of the three outcomes of the yield region (normal
completion, an exception during generation, early abandonment) — the net
hold count of both locks is zero at exit (everything acquired has been
released), and no prefix of the event trace ever releases a lock that is
not held. -/
theorem get_llama_model_lock_release (ia : InnerAcquire) (b : BodyOutcome) :
    (heldCount (getLlamaModelEvents ia b) LockId.outer = 0 ∧
     heldCount (getLlamaModelEvents ia b) LockId.inner = 0) ∧
    (∀ k, k < (getLlamaModelEvents ia b).length + 1 →
       0 ≤ heldCount ((getLlamaModelEvents ia b).take k) LockId.outer ∧
       0 ≤ heldCount ((getLlamaModelEvents ia b).take k) LockId.inner) := by
  cases ia <;> cases b <;> decide

/-- Witness for C6 on the early-abandonment path. -/
theorem get_llama_model_lock_release_witness :
    0 ≤ heldCount ((getLlamaModelEvents .ok .closed).take 2) LockId.outer ∧
    0 ≤ heldCount ((getLlamaModelEvents .ok .closed).take 2) LockId.inner :=
  (get_llama_model_lock_release .ok .closed).2 2 (by decide)

/-! ## C7: the two-lock turnstile invariant -/

/-- Updating at `r` reads back the new value. -/
theorem updPC_eq {R : Type} [DecidableEq R] (s : R → PC) (r : R) (p : PC) :
    updPC s r p r = p := by simp [updPC]

/-- Updating at `r` leaves other requests unchanged. -/
theorem updPC_ne {R : Type} [DecidableEq R] (s : R → PC) (r r2 : R) (p : PC)
    (h : r2 ≠ r) : updPC s r p r2 = s r2 := by simp [updPC, h]

/-- Mutual exclusion of both locks along every reachable state: at most
one request holds the outer lock and at most one holds the inner lock. -/
theorem arb_at_most_one {R : Type} [DecidableEq R] (s : R → PC)
    (hs : ArbReachable R s) :
    (∀ r1 r2, holdsOuter (s r1) = true → holdsOuter (s r2) = true → r1 = r2) ∧
    (∀ r1 r2, holdsInner (s r1) = true → holdsInner (s r2) = true → r1 = r2) := by
  induction hs with
  | init =>
    constructor <;> intro r1 r2 h1 h2 <;> simp [holdsOuter, holdsInner] at h1
  | step s s2 r _hreach hstep ih =>
    obtain ⟨ihO, ihI⟩ := ih
    cases hstep with
    | acquireOuter _ _ hpc hguard =>
      constructor
      · intro r1 r2 h1 h2
        by_cases e1 : r1 = r
        · by_cases e2 : r2 = r
          · rw [e1, e2]
          · rw [updPC_ne s r r2 _ e2, hguard r2] at h2; cases h2
        · rw [updPC_ne s r r1 _ e1, hguard r1] at h1; cases h1
      · intro r1 r2 h1 h2
        have t : ∀ r3, holdsInner (updPC s r PC.waitInner r3) = true →
            holdsInner (s r3) = true := by
          intro r3 h3
          by_cases e3 : r3 = r
          · rw [e3, updPC_eq] at h3; cases h3
          · rwa [updPC_ne s r r3 _ e3] at h3
        exact ihI r1 r2 (t r1 h1) (t r2 h2)
    | acquireInner _ _ hpc hguard =>
      constructor
      · intro r1 r2 h1 h2
        have t : ∀ r3, holdsOuter (updPC s r PC.holdBoth r3) = true →
            holdsOuter (s r3) = true := by
          intro r3 h3
          by_cases e3 : r3 = r
          · rw [e3, hpc]; rfl
          · rwa [updPC_ne s r r3 _ e3] at h3
        exact ihO r1 r2 (t r1 h1) (t r2 h2)
      · intro r1 r2 h1 h2
        by_cases e1 : r1 = r
        · by_cases e2 : r2 = r
          · rw [e1, e2]
          · rw [updPC_ne s r r2 _ e2, hguard r2] at h2; cases h2
        · rw [updPC_ne s r r1 _ e1, hguard r1] at h1; cases h1
    | releaseOuter _ _ hpc =>
      constructor
      · intro r1 r2 h1 h2
        have t : ∀ r3, holdsOuter (updPC s r PC.executing r3) = true →
            holdsOuter (s r3) = true := by
          intro r3 h3
          by_cases e3 : r3 = r
          · rw [e3, updPC_eq] at h3; cases h3
          · rwa [updPC_ne s r r3 _ e3] at h3
        exact ihO r1 r2 (t r1 h1) (t r2 h2)
      · intro r1 r2 h1 h2
        have t : ∀ r3, holdsInner (updPC s r PC.executing r3) = true →
            holdsInner (s r3) = true := by
          intro r3 h3
          by_cases e3 : r3 = r
          · rw [e3, hpc]; rfl
          · rwa [updPC_ne s r r3 _ e3] at h3
        exact ihI r1 r2 (t r1 h1) (t r2 h2)
    | releaseInner _ _ hpc =>
      constructor
      · intro r1 r2 h1 h2
        have t : ∀ r3, holdsOuter (updPC s r PC.done r3) = true →
            holdsOuter (s r3) = true := by
          intro r3 h3
          by_cases e3 : r3 = r
          · rw [e3, updPC_eq] at h3; cases h3
          · rwa [updPC_ne s r r3 _ e3] at h3
        exact ihO r1 r2 (t r1 h1) (t r2 h2)
      · intro r1 r2 h1 h2
        have t : ∀ r3, holdsInner (updPC s r PC.done r3) = true →
            holdsInner (s r3) = true := by
          intro r3 h3
          by_cases e3 : r3 = r
          · rw [e3, updPC_eq] at h3; cases h3
          · rwa [updPC_ne s r r3 _ e3] at h3
        exact ihI r1 r2 (t r1 h1) (t r2 h2)

/-- C7: in every reachable state of the two-lock turnstile protocol, at
most one request holds the inner (execution) lock, at most one request
holds the outer (admission) lock; the request sitting in the
waiting-to-acquire-inner position is the unique outer holder; any step
that acquires the inner lock is taken by that unique outer holder (it is
"next"); and while the outer lock is held, every request still at `start`
is blocked (it has no enabled transition). -/
theorem turnstile_invariant (R : Type) [DecidableEq R] (s : R → PC)
    (hs : ArbReachable R s) :
    (∀ r1 r2, holdsInner (s r1) = true → holdsInner (s r2) = true → r1 = r2) ∧
    (∀ r1 r2, holdsOuter (s r1) = true → holdsOuter (s r2) = true → r1 = r2) ∧
    (∀ r r2, s r = PC.waitInner → holdsOuter (s r2) = true → r2 = r) ∧
    (∀ r2 s2, ArbStep R r2 s s2 → holdsInner (s r2) = false →
        holdsInner (s2 r2) = true →
        holdsOuter (s r2) = true ∧ ∀ r3, holdsOuter (s r3) = true → r3 = r2) ∧
    (∀ r0 r2, holdsOuter (s r0) = true → s r2 = PC.start →
        ∀ s2, ¬ ArbStep R r2 s s2) := by
  obtain ⟨hO, hI⟩ := arb_at_most_one s hs
  refine ⟨hI, hO, ?_, ?_, ?_⟩
  · intro r r2 hw h2
    exact hO r2 r h2 (by rw [hw]; rfl)
  · intro r2 s2 hstep hbefore hafter
    cases hstep with
    | acquireOuter _ _ hpc hguard =>
      rw [updPC_eq] at hafter; cases hafter
    | acquireInner _ _ hpc hguard =>
      refine ⟨by rw [hpc]; rfl, ?_⟩
      intro r3 h3
      exact hO r3 r2 h3 (by rw [hpc]; rfl)
    | releaseOuter _ _ hpc =>
      rw [hpc] at hbefore; cases hbefore
    | releaseInner _ _ hpc =>
      rw [hpc] at hbefore; cases hbefore
  · intro r0 r2 h0 hstart s2 hstep
    cases hstep with
    | acquireOuter _ _ hpc hguard =>
      rw [hguard r0] at h0; cases h0
    | acquireInner _ _ hpc hguard =>
      rw [hstart] at hpc; cases hpc
    | releaseOuter _ _ hpc =>
      rw [hstart] at hpc; cases hpc
    | releaseInner _ _ hpc =>
      rw [hstart] at hpc; cases hpc

/-- Witness for C7 at the initial (all-idle) state over two requests. -/
theorem turnstile_invariant_witness :
    (∀ r1 r2 : Bool, holdsInner PC.start = true → holdsInner PC.start = true → r1 = r2) ∧
    (∀ r1 r2 : Bool, holdsOuter PC.start = true → holdsOuter PC.start = true → r1 = r2) ∧
    (∀ r r2 : Bool, PC.start = PC.waitInner → holdsOuter PC.start = true → r2 = r) ∧
    (∀ (r2 : Bool) (s2 : Bool → PC), ArbStep Bool r2 (fun _ => PC.start) s2 →
        holdsInner PC.start = false → holdsInner (s2 r2) = true →
        holdsOuter PC.start = true ∧ ∀ r3 : Bool, holdsOuter PC.start = true → r3 = r2) ∧
    (∀ r0 r2 : Bool, holdsOuter PC.start = true → PC.start = PC.start →
        ∀ s2, ¬ ArbStep Bool r2 (fun _ => PC.start) s2) :=
  turnstile_invariant Bool (fun _ => PC.start) ArbReachable.init

/-! ## C4: rotary offset and cache growth in `Attention.__call__` -/

/-- C4: with a prior cache entry of sequence length `n`, the returned
cache entry has sequence length `n + L` (so each single-token decode step,
`L = 1`, grows it by exactly one); its first `n` positions are the cached
keys/values unchanged; position `n + j` holds the fresh key of local
position `j` rotary-encoded at absolute position `n + j` (i.e. with offset
`n`) resp. the fresh value; the query of local position `i` is
rotary-encoded at absolute position `n + i`.  With no cache the offset is
`0` and the returned entry has length `L`. -/
theorem attention_cache_growth (ops : Ops) (args : ModelArgs) (w : AttnW)
    (L : ℕ) (x : Mat) (mask : Option Mask) (c : KVEntry) :
    ((attnCall ops args w L x mask (some c)).2.n = c.n + L) ∧
    ((attnCall ops args w 1 x mask (some c)).2.n = c.n + 1) ∧
    (∀ h j d, j < c.n →
        (attnCall ops args w L x mask (some c)).2.k h j d = c.k h j d ∧
        (attnCall ops args w L x mask (some c)).2.v h j d = c.v h j d) ∧
    (∀ h j,
        (attnCall ops args w L x mask (some c)).2.k h (c.n + j) =
          ropeAt ops args.rope_theta args.head_dim (c.n + j)
            (repeatKV args.repeats (projHeads args w.k_proj x) h j) ∧
        (attnCall ops args w L x mask (some c)).2.v h (c.n + j) =
          repeatKV args.repeats (projHeads args w.v_proj x) h j) ∧
    (∀ h i, attnQ ops args w x (some c) h i =
        ropeAt ops args.rope_theta args.head_dim (c.n + i)
          (projHeads args w.q_proj x h i)) ∧
    ((attnCall ops args w L x mask none).2.n = L) ∧
    (∀ h i, attnQ ops args w x none h i =
        ropeAt ops args.rope_theta args.head_dim i (projHeads args w.q_proj x h i)) ∧
    (∀ h j, (attnCall ops args w L x mask none).2.k h j =
        ropeAt ops args.rope_theta args.head_dim j
          (repeatKV args.repeats (projHeads args w.k_proj x) h j) ∧
        (attnCall ops args w L x mask none).2.v h j =
          repeatKV args.repeats (projHeads args w.v_proj x) h j) := by
  refine ⟨rfl, rfl, ?_, ?_, ?_, Nat.zero_add L, ?_, ?_⟩
  · intro h j d hj
    constructor
    · show concatSeq c.n c.k (attnNewK ops args w x (some c)) h j d = c.k h j d
      simp [concatSeq, hj]
    · show concatSeq c.n c.v (attnNewV args w x) h j d = c.v h j d
      simp [concatSeq, hj]
  · intro h j
    constructor
    · show concatSeq c.n c.k (attnNewK ops args w x (some c)) h (c.n + j) = _
      funext d
      have hnot : ¬ c.n + j < c.n := by omega
      simp only [concatSeq, if_neg hnot, Nat.add_sub_cancel_left]
      rfl
    · show concatSeq c.n c.v (attnNewV args w x) h (c.n + j) = _
      funext d
      have hnot : ¬ c.n + j < c.n := by omega
      simp only [concatSeq, if_neg hnot, Nat.add_sub_cancel_left]
      rfl
  · intro h i
    rfl
  · intro h i
    show ropeAt ops args.rope_theta args.head_dim (0 + i) _ = _
    rw [Nat.zero_add]
  · intro h j
    constructor
    · show ropeAt ops args.rope_theta args.head_dim (0 + j) _ = _
      rw [Nat.zero_add]
    · rfl

/-- Witness for C4: the cached prefix of the returned cache entry is
preserved at the concrete input `cW`. -/
theorem attention_cache_growth_witness :
    (attnCall opsW argsW wAW 1 (fun _ _ => 1) none (some cW)).2.k 0 0 0 = cW.k 0 0 0 ∧
    (attnCall opsW argsW wAW 1 (fun _ _ => 1) none (some cW)).2.v 0 0 0 = cW.v 0 0 0 :=
  (attention_cache_growth opsW argsW wAW 1 (fun _ _ => 1) none cW).2.2.1 0 0 0
    (by decide)

/-! ## Unfolding equations and row-level lemmas for the attention stack -/

/-- Output component of `attnCall`, unfolded. -/
theorem attnCall_fst (ops : Ops) (args : ModelArgs) (w : AttnW) (L : ℕ)
    (x : Mat) (mask : Option Mask) (cache : Option KVEntry) :
    (attnCall ops args w L x mask cache).1 = fun i =>
      linear w.o_proj (args.num_attention_heads * args.head_dim)
        (fun f => attnOutH ops args w L x mask cache (f / args.head_dim) i
          (f % args.head_dim)) := rfl

/-- Cache component of `blockCall`, unfolded: the attention cache on the
normed input. -/
theorem blockCall_snd (ops : Ops) (args : ModelArgs) (b : BlockW) (L : ℕ)
    (x : Mat) (mask : Option Mask) (cache : Option KVEntry) :
    (blockCall ops args b L x mask cache).2 =
      (attnCall ops args b.self_attn L
        (fun i => rmsNorm ops args.hidden_size args.rms_norm_eps b.input_layernorm (x i))
        mask cache).2 := rfl

/-- Output component of `blockCall`, unfolded. -/
theorem blockCall_fst (ops : Ops) (args : ModelArgs) (b : BlockW) (L : ℕ)
    (x : Mat) (mask : Option Mask) (cache : Option KVEntry) :
    (blockCall ops args b L x mask cache).1 = fun i d =>
      (x i d + (attnCall ops args b.self_attn L
        (fun i2 => rmsNorm ops args.hidden_size args.rms_norm_eps b.input_layernorm (x i2))
        mask cache).1 i d) +
      feedForward ops args b.mlp
        (rmsNorm ops args.hidden_size args.rms_norm_eps b.post_attention_layernorm
          (fun d2 => x i d2 + (attnCall ops args b.self_attn L
            (fun i2 => rmsNorm ops args.hidden_size args.rms_norm_eps b.input_layernorm (x i2))
            mask cache).1 i d2)) d := rfl

/-- `runLayers` on the empty layer list. -/
theorem runLayers_nil (ops : Ops) (args : ModelArgs) (cs : List (Option KVEntry))
    (L : ℕ) (x : Mat) (mask : Option Mask) :
    runLayers ops args [] cs L x mask = (x, []) := rfl

/-- `runLayers` unfolded one layer. -/
theorem runLayers_cons (ops : Ops) (args : ModelArgs) (b : BlockW)
    (bs : List BlockW) (cs : List (Option KVEntry)) (L : ℕ) (x : Mat)
    (mask : Option Mask) :
    runLayers ops args (b :: bs) cs L x mask =
      ((runLayers ops args bs cs.tail L
          (blockCall ops args b L x mask (cs.headD none)).1 mask).1,
       (blockCall ops args b L x mask (cs.headD none)).2 ::
         (runLayers ops args bs cs.tail L
          (blockCall ops args b L x mask (cs.headD none)).1 mask).2) := rfl

/-- Output component of `llamaCall` with no cache, unfolded. -/
theorem llamaCall_none_fst (ops : Ops) (args : ModelArgs) (w : LlamaW)
    (ts : List ℕ) (m0 : Option Mask) :
    (llamaCall ops args w ts m0 none).1 = fun i =>
      linear w.lm_head args.hidden_size
        (rmsNorm ops args.hidden_size args.rms_norm_eps w.norm
          ((runLayers ops args w.layers (List.replicate w.layers.length none)
            ts.length (fun i2 => w.embed_tokens (ts.getD i2 0))
            (maskFor ts.length)).1 i)) := rfl

/-- Cache component of `llamaCall` with no cache, unfolded. -/
theorem llamaCall_none_snd (ops : Ops) (args : ModelArgs) (w : LlamaW)
    (ts : List ℕ) (m0 : Option Mask) :
    (llamaCall ops args w ts m0 none).2 =
      (runLayers ops args w.layers (List.replicate w.layers.length none)
        ts.length (fun i2 => w.embed_tokens (ts.getD i2 0))
        (maskFor ts.length)).2 := rfl

/-- Output component of `llamaCall` with a supplied cache list, unfolded. -/
theorem llamaCall_some_fst (ops : Ops) (args : ModelArgs) (w : LlamaW)
    (ts : List ℕ) (m0 : Option Mask) (l : List KVEntry) :
    (llamaCall ops args w ts m0 (some l)).1 = fun i =>
      linear w.lm_head args.hidden_size
        (rmsNorm ops args.hidden_size args.rms_norm_eps w.norm
          ((runLayers ops args w.layers (l.map some)
            ts.length (fun i2 => w.embed_tokens (ts.getD i2 0))
            (maskFor ts.length)).1 i)) := rfl

/-- Row form of the rotary-encoded queries. -/
theorem attnQ_row (ops : Ops) (args : ModelArgs) (w : AttnW) (x : Mat)
    (cache : Option KVEntry) (h i : ℕ) :
    attnQ ops args w x cache h i =
      ropeAt ops args.rope_theta args.head_dim (cacheLen cache + i)
        (projHeads args w.q_proj x h i) := rfl

/-- Row form of the key context with no cache. -/
theorem attnK_row_none (ops : Ops) (args : ModelArgs) (w : AttnW) (x : Mat)
    (h j : ℕ) :
    attnK ops args w x none h j =
      ropeAt ops args.rope_theta args.head_dim (0 + j)
        (projHeads args w.k_proj x (h / args.repeats) j) := rfl

/-- Row form of the fresh (repeated, rotary-encoded) keys. -/
theorem attnNewK_row (ops : Ops) (args : ModelArgs) (w : AttnW) (x : Mat)
    (cache : Option KVEntry) (h j : ℕ) :
    attnNewK ops args w x cache h j =
      ropeAt ops args.rope_theta args.head_dim (cacheLen cache + j)
        (projHeads args w.k_proj x (h / args.repeats) j) := rfl

/-- Row form of the value context with no cache. -/
theorem attnV_row_none (args : ModelArgs) (w : AttnW) (x : Mat) (h j : ℕ) :
    attnV args w x none h j =
      projHeads args w.v_proj x (h / args.repeats) j := rfl

/-- Row form of the fresh (repeated) values. -/
theorem attnNewV_row (args : ModelArgs) (w : AttnW) (x : Mat) (h j : ℕ) :
    attnNewV args w x h j = projHeads args w.v_proj x (h / args.repeats) j := rfl

/-- Row congruence of the head projections: equal input rows give equal
projected rows. -/
theorem projHeads_row_congr (args : ModelArgs) (wp : Mat) (x1 x2 : Mat)
    (i1 i2 : ℕ) (hx : x1 i1 = x2 i2) (h : ℕ) :
    projHeads args wp x1 h i1 = projHeads args wp x2 h i2 := by
  funext d
  show linear wp args.hidden_size (x1 i1) (h * args.head_dim + d) =
    linear wp args.hidden_size (x2 i2) (h * args.head_dim + d)
  rw [hx]

/-- Score congruence from row equality of queries and keys. -/
theorem attnScores_congr (ops : Ops) (args : ModelArgs) (w : AttnW)
    (x1 x2 : Mat) (c1 c2 : Option KVEntry) (i1 i2 j1 j2 h : ℕ)
    (hq : attnQ ops args w x1 c1 h i1 = attnQ ops args w x2 c2 h i2)
    (hk : attnK ops args w x1 c1 h j1 = attnK ops args w x2 c2 h j2) :
    attnScores ops args w x1 c1 h i1 j1 = attnScores ops args w x2 c2 h i2 j2 := by
  unfold attnScores
  apply Finset.sum_congr rfl
  intro d _
  rw [congrFun hq d, congrFun hk d]

/-- A row entry at or before the diagonal survives the `maskFor` mask. -/
theorem expOpt_maskFor_lower (ops : Ops) (L i j : ℕ) (s : ℕ → ℚ) (hj : j ≤ i) :
    expOpt ops (maskApply (maskFor L) s i j) = ops.exp (s j) := by
  have hc : causalMask i j = false := by
    simp only [causalMask, decide_eq_false_iff_not]
    omega
  unfold maskFor maskApply
  by_cases h : 1 < L
  · rw [if_pos h]
    simp only [hc]
    rfl
  · rw [if_neg h]
    rfl

/-- A row entry strictly after the diagonal (within the sequence) is
annihilated by the `maskFor` mask. -/
theorem expOpt_maskFor_upper (ops : Ops) (L i j : ℕ) (s : ℕ → ℚ)
    (hi : i < j) (hj : j < L) :
    expOpt ops (maskApply (maskFor L) s i j) = 0 := by
  have h1 : 1 < L := by omega
  have hc : causalMask i j = true := by
    simp only [causalMask, decide_eq_true_eq]
    exact hi
  unfold maskFor maskApply
  rw [if_pos h1]
  simp only [hc]
  rfl

/-- Causal row reduction of the softmax denominator: with the mask built
by the stack and no cache, row `i` sums only its first `i + 1` entries
(the masked tail contributes exactly zero). -/
theorem attnDenom_causal (ops : Ops) (args : ModelArgs) (w : AttnW) (L : ℕ)
    (x : Mat) (h i : ℕ) (hi : i < L) :
    attnDenom ops args w L x (maskFor L) none h i =
      ∑ j ∈ Finset.range (i + 1), ops.exp (attnScores ops args w x none h i j) := by
  unfold attnDenom attnMS
  have hlen : cacheLen none + L = L := Nat.zero_add L
  rw [hlen]
  calc ∑ j ∈ Finset.range L,
        expOpt ops (maskApply (maskFor L) (fun j2 => attnScores ops args w x none h i j2) i j)
      = ∑ j ∈ Finset.range (i + 1),
        expOpt ops (maskApply (maskFor L) (fun j2 => attnScores ops args w x none h i j2) i j) := by
        apply sum_range_drop_tail _ _ _ hi
        intro j hj1 hj2
        exact expOpt_maskFor_upper ops L i j _ (by omega) hj2
    _ = ∑ j ∈ Finset.range (i + 1), ops.exp (attnScores ops args w x none h i j) := by
        apply Finset.sum_congr rfl
        intro j hj
        have : j ≤ i := by
          have := Finset.mem_range.mp hj
          omega
        exact expOpt_maskFor_lower ops L i j _ this

/-- Causal row reduction of the attention output: the weights of the
masked tail are exactly zero, so row `i` reads only value positions
`0 .. i`. -/
theorem attnOutH_causal (ops : Ops) (args : ModelArgs) (w : AttnW) (L : ℕ)
    (x : Mat) (h i d : ℕ) (hi : i < L) :
    attnOutH ops args w L x (maskFor L) none h i d =
      ∑ j ∈ Finset.range (i + 1),
        ops.exp (attnScores ops args w x none h i j) /
          attnDenom ops args w L x (maskFor L) none h i *
          attnV args w x none h j d := by
  unfold attnOutH attnWgt attnMS
  have hlen : cacheLen none + L = L := Nat.zero_add L
  rw [hlen]
  calc ∑ j ∈ Finset.range L,
        expOpt ops (maskApply (maskFor L) (fun j2 => attnScores ops args w x none h i j2) i j) /
          attnDenom ops args w L x (maskFor L) none h i * attnV args w x none h j d
      = ∑ j ∈ Finset.range (i + 1),
        expOpt ops (maskApply (maskFor L) (fun j2 => attnScores ops args w x none h i j2) i j) /
          attnDenom ops args w L x (maskFor L) none h i * attnV args w x none h j d := by
        apply sum_range_drop_tail _ _ _ hi
        intro j hj1 hj2
        rw [expOpt_maskFor_upper ops L i j _ (by omega) hj2, zero_div, zero_mul]
    _ = ∑ j ∈ Finset.range (i + 1),
        ops.exp (attnScores ops args w x none h i j) /
          attnDenom ops args w L x (maskFor L) none h i * attnV args w x none h j d := by
        apply Finset.sum_congr rfl
        intro j hj
        have hji : j ≤ i := by
          have := Finset.mem_range.mp hj
          omega
        rw [expOpt_maskFor_lower ops L i j _ hji]

/-- With no mask (the single-token decode path), the softmax denominator
is the plain sum of exponentiated scores over the cached-plus-new length. -/
theorem attnDenom_nomask (ops : Ops) (args : ModelArgs) (w : AttnW) (L : ℕ)
    (x : Mat) (cache : Option KVEntry) (h i : ℕ) :
    attnDenom ops args w L x none cache h i =
      ∑ j ∈ Finset.range (cacheLen cache + L),
        ops.exp (attnScores ops args w x cache h i j) := by
  unfold attnDenom attnMS
  apply Finset.sum_congr rfl
  intro j _
  rfl

/-- With no mask, the attention output row is the plain softmax-weighted
value sum over the cached-plus-new length. -/
theorem attnOutH_nomask (ops : Ops) (args : ModelArgs) (w : AttnW) (L : ℕ)
    (x : Mat) (cache : Option KVEntry) (h i d : ℕ) :
    attnOutH ops args w L x none cache h i d =
      ∑ j ∈ Finset.range (cacheLen cache + L),
        ops.exp (attnScores ops args w x cache h i j) /
          attnDenom ops args w L x none cache h i *
          attnV args w x cache h j d := by
  unfold attnOutH attnWgt attnMS
  apply Finset.sum_congr rfl
  intro j _
  rfl

/-- Prefix agreement at the attention layer: two fresh (cacheless) calls
through the stack-built mask whose inputs agree on the first `m` positions
produce equal outputs and equal key/value context rows at those
positions, regardless of the sequence lengths beyond `m`. -/
theorem attnCall_causal_agree (ops : Ops) (args : ModelArgs) (w : AttnW)
    (L1 L2 m : ℕ) (x1 x2 : Mat) (hm1 : m ≤ L1) (hm2 : m ≤ L2)
    (hx : ∀ i, i < m → x1 i = x2 i) :
    (∀ i, i < m → (attnCall ops args w L1 x1 (maskFor L1) none).1 i =
        (attnCall ops args w L2 x2 (maskFor L2) none).1 i) ∧
    (∀ h j, j < m →
        attnK ops args w x1 none h j = attnK ops args w x2 none h j ∧
        attnV args w x1 none h j = attnV args w x2 none h j) := by
  have hK : ∀ h j, j < m → attnK ops args w x1 none h j = attnK ops args w x2 none h j := by
    intro h j hj
    rw [attnK_row_none, attnK_row_none,
      projHeads_row_congr args w.k_proj x1 x2 j j (hx j hj) (h / args.repeats)]
  have hV : ∀ h j, j < m → attnV args w x1 none h j = attnV args w x2 none h j := by
    intro h j hj
    rw [attnV_row_none, attnV_row_none,
      projHeads_row_congr args w.v_proj x1 x2 j j (hx j hj) (h / args.repeats)]
  have hQ : ∀ h i, i < m → attnQ ops args w x1 none h i = attnQ ops args w x2 none h i := by
    intro h i hi
    rw [attnQ_row, attnQ_row,
      projHeads_row_congr args w.q_proj x1 x2 i i (hx i hi) h]
  have hS : ∀ h i j, i < m → j < m →
      attnScores ops args w x1 none h i j = attnScores ops args w x2 none h i j := by
    intro h i j hi hj
    exact attnScores_congr ops args w x1 x2 none none i i j j h (hQ h i hi) (hK h j hj)
  have hD : ∀ h i, i < m →
      attnDenom ops args w L1 x1 (maskFor L1) none h i =
        attnDenom ops args w L2 x2 (maskFor L2) none h i := by
    intro h i hi
    rw [attnDenom_causal ops args w L1 x1 h i (lt_of_lt_of_le hi hm1),
      attnDenom_causal ops args w L2 x2 h i (lt_of_lt_of_le hi hm2)]
    apply Finset.sum_congr rfl
    intro j hj
    have hjm : j < m := by
      have := Finset.mem_range.mp hj
      omega
    rw [hS h i j hi hjm]
  have hO : ∀ h i d, i < m →
      attnOutH ops args w L1 x1 (maskFor L1) none h i d =
        attnOutH ops args w L2 x2 (maskFor L2) none h i d := by
    intro h i d hi
    rw [attnOutH_causal ops args w L1 x1 h i d (lt_of_lt_of_le hi hm1),
      attnOutH_causal ops args w L2 x2 h i d (lt_of_lt_of_le hi hm2)]
    apply Finset.sum_congr rfl
    intro j hj
    have hjm : j < m := by
      have := Finset.mem_range.mp hj
      omega
    rw [hS h i j hi hjm, hD h i hi, congrFun (hV h j hjm) d]
  refine ⟨?_, fun h j hj => ⟨hK h j hj, hV h j hj⟩⟩
  intro i hi
  have hfun : (fun f => attnOutH ops args w L1 x1 (maskFor L1) none
      (f / args.head_dim) i (f % args.head_dim)) =
      (fun f => attnOutH ops args w L2 x2 (maskFor L2) none
      (f / args.head_dim) i (f % args.head_dim)) :=
    funext fun f => hO (f / args.head_dim) i (f % args.head_dim) hi
  show linear w.o_proj (args.num_attention_heads * args.head_dim)
      (fun f => attnOutH ops args w L1 x1 (maskFor L1) none
        (f / args.head_dim) i (f % args.head_dim)) =
    linear w.o_proj (args.num_attention_heads * args.head_dim)
      (fun f => attnOutH ops args w L2 x2 (maskFor L2) none
        (f / args.head_dim) i (f % args.head_dim))
  rw [hfun]

/-- Incremental-decode agreement at the attention layer: a single-token
call carrying a cache that equals the key/value context a fresh causal
call built on the first `L - 1` positions, on an input row equal to the
fresh call's last input row, produces exactly the fresh call's output at
its last position. -/
theorem attnCall_incr (ops : Ops) (args : ModelArgs) (w : AttnW) (L : ℕ)
    (hL : 2 ≤ L) (x x2 : Mat) (c : KVEntry)
    (hn : c.n = L - 1)
    (hlast : x2 0 = x (L - 1))
    (hck : ∀ h j, j < L - 1 → c.k h j = attnK ops args w x none h j ∧
        c.v h j = attnV args w x none h j) :
    (attnCall ops args w 1 x2 (maskFor 1) (some c)).1 0 =
      (attnCall ops args w L x (maskFor L) none).1 (L - 1) := by
  have hm1 : maskFor 1 = none := rfl
  have hQ : ∀ h, attnQ ops args w x2 (some c) h 0 = attnQ ops args w x none h (L - 1) := by
    intro h
    rw [attnQ_row, attnQ_row]
    have hoq : cacheLen (some c) + 0 = cacheLen none + (L - 1) := by
      show c.n + 0 = 0 + (L - 1)
      omega
    rw [hoq, projHeads_row_congr args w.q_proj x2 x 0 (L - 1) hlast h]
  have hK : ∀ h j, j < L → attnK ops args w x2 (some c) h j = attnK ops args w x none h j := by
    intro h j hj
    by_cases hjc : j < c.n
    · funext d
      show (if j < c.n then c.k h j d else attnNewK ops args w x2 (some c) h (j - c.n) d) =
        attnK ops args w x none h j d
      rw [if_pos hjc]
      exact congrFun ((hck h j (by omega)).1) d
    · have hj1 : j = L - 1 := by omega
      subst hj1
      have hnew : attnNewK ops args w x2 (some c) h 0 = attnK ops args w x none h (L - 1) := by
        rw [attnNewK_row, attnK_row_none]
        have hoq : cacheLen (some c) + 0 = 0 + (L - 1) := by
          show c.n + 0 = 0 + (L - 1)
          omega
        rw [hoq, projHeads_row_congr args w.k_proj x2 x 0 (L - 1) hlast (h / args.repeats)]
      funext d
      show (if L - 1 < c.n then c.k h (L - 1) d
          else attnNewK ops args w x2 (some c) h (L - 1 - c.n) d) =
        attnK ops args w x none h (L - 1) d
      rw [if_neg hjc]
      have h0 : L - 1 - c.n = 0 := by omega
      rw [h0]
      exact congrFun hnew d
  have hV : ∀ h j, j < L → attnV args w x2 (some c) h j = attnV args w x none h j := by
    intro h j hj
    by_cases hjc : j < c.n
    · funext d
      show (if j < c.n then c.v h j d else attnNewV args w x2 h (j - c.n) d) =
        attnV args w x none h j d
      rw [if_pos hjc]
      exact congrFun ((hck h j (by omega)).2) d
    · have hj1 : j = L - 1 := by omega
      subst hj1
      have hnew : attnNewV args w x2 h 0 = attnV args w x none h (L - 1) := by
        rw [attnNewV_row, attnV_row_none,
          projHeads_row_congr args w.v_proj x2 x 0 (L - 1) hlast (h / args.repeats)]
      funext d
      show (if L - 1 < c.n then c.v h (L - 1) d
          else attnNewV args w x2 h (L - 1 - c.n) d) =
        attnV args w x none h (L - 1) d
      rw [if_neg hjc]
      have h0 : L - 1 - c.n = 0 := by omega
      rw [h0]
      exact congrFun hnew d
  have hS : ∀ h j, j < L →
      attnScores ops args w x2 (some c) h 0 j = attnScores ops args w x none h (L - 1) j := by
    intro h j hj
    exact attnScores_congr ops args w x2 x (some c) none 0 (L - 1) j j h (hQ h) (hK h j hj)
  have hlen1 : cacheLen (some c) + 1 = L := by
    show c.n + 1 = L
    omega
  have hLL : L - 1 + 1 = L := by omega
  have hD : ∀ h, attnDenom ops args w 1 x2 none (some c) h 0 =
      attnDenom ops args w L x (maskFor L) none h (L - 1) := by
    intro h
    rw [attnDenom_nomask, attnDenom_causal ops args w L x h (L - 1) (by omega), hlen1, hLL]
    apply Finset.sum_congr rfl
    intro j hj
    rw [hS h j (Finset.mem_range.mp hj)]
  have hO : ∀ h d, attnOutH ops args w 1 x2 none (some c) h 0 d =
      attnOutH ops args w L x (maskFor L) none h (L - 1) d := by
    intro h d
    rw [attnOutH_nomask, attnOutH_causal ops args w L x h (L - 1) d (by omega), hlen1, hLL]
    apply Finset.sum_congr rfl
    intro j hj
    have hjL : j < L := Finset.mem_range.mp hj
    rw [hS h j hjL, hD h, congrFun (hV h j hjL) d]
  rw [hm1]
  have hfun : (fun f => attnOutH ops args w 1 x2 none (some c)
      (f / args.head_dim) 0 (f % args.head_dim)) =
      (fun f => attnOutH ops args w L x (maskFor L) none
      (f / args.head_dim) (L - 1) (f % args.head_dim)) :=
    funext fun f => hO (f / args.head_dim) (f % args.head_dim)
  show linear w.o_proj (args.num_attention_heads * args.head_dim)
      (fun f => attnOutH ops args w 1 x2 none (some c)
        (f / args.head_dim) 0 (f % args.head_dim)) =
    linear w.o_proj (args.num_attention_heads * args.head_dim)
      (fun f => attnOutH ops args w L x (maskFor L) none
        (f / args.head_dim) (L - 1) (f % args.head_dim))
  rw [hfun]

/-- Prefix agreement at the decoder block: residual adds, norms and the
feed-forward act positionwise, so the attention-level agreement lifts. -/
theorem blockCall_causal_agree (ops : Ops) (args : ModelArgs) (b : BlockW)
    (L1 L2 m : ℕ) (x1 x2 : Mat) (hm1 : m ≤ L1) (hm2 : m ≤ L2)
    (hx : ∀ i, i < m → x1 i = x2 i) :
    (∀ i, i < m → (blockCall ops args b L1 x1 (maskFor L1) none).1 i =
        (blockCall ops args b L2 x2 (maskFor L2) none).1 i) ∧
    (∀ h j, j < m →
        (blockCall ops args b L1 x1 (maskFor L1) none).2.k h j =
          (blockCall ops args b L2 x2 (maskFor L2) none).2.k h j ∧
        (blockCall ops args b L1 x1 (maskFor L1) none).2.v h j =
          (blockCall ops args b L2 x2 (maskFor L2) none).2.v h j) := by
  have hinp : ∀ i, i < m →
      (fun i2 => rmsNorm ops args.hidden_size args.rms_norm_eps b.input_layernorm (x1 i2)) i =
      (fun i2 => rmsNorm ops args.hidden_size args.rms_norm_eps b.input_layernorm (x2 i2)) i := by
    intro i hi
    show rmsNorm ops args.hidden_size args.rms_norm_eps b.input_layernorm (x1 i) =
      rmsNorm ops args.hidden_size args.rms_norm_eps b.input_layernorm (x2 i)
    rw [hx i hi]
  obtain ⟨hattn, hkv⟩ := attnCall_causal_agree ops args b.self_attn L1 L2 m
    (fun i2 => rmsNorm ops args.hidden_size args.rms_norm_eps b.input_layernorm (x1 i2))
    (fun i2 => rmsNorm ops args.hidden_size args.rms_norm_eps b.input_layernorm (x2 i2))
    hm1 hm2 hinp
  constructor
  · intro i hi
    have hx2 := hx i hi
    have hattn2 := hattn i hi
    funext d
    show (x1 i d + (attnCall ops args b.self_attn L1
        (fun i2 => rmsNorm ops args.hidden_size args.rms_norm_eps b.input_layernorm (x1 i2))
        (maskFor L1) none).1 i d) +
      feedForward ops args b.mlp
        (rmsNorm ops args.hidden_size args.rms_norm_eps b.post_attention_layernorm
          (fun d2 => x1 i d2 + (attnCall ops args b.self_attn L1
            (fun i2 => rmsNorm ops args.hidden_size args.rms_norm_eps b.input_layernorm (x1 i2))
            (maskFor L1) none).1 i d2)) d =
      (x2 i d + (attnCall ops args b.self_attn L2
        (fun i2 => rmsNorm ops args.hidden_size args.rms_norm_eps b.input_layernorm (x2 i2))
        (maskFor L2) none).1 i d) +
      feedForward ops args b.mlp
        (rmsNorm ops args.hidden_size args.rms_norm_eps b.post_attention_layernorm
          (fun d2 => x2 i d2 + (attnCall ops args b.self_attn L2
            (fun i2 => rmsNorm ops args.hidden_size args.rms_norm_eps b.input_layernorm (x2 i2))
            (maskFor L2) none).1 i d2)) d
    have hh : (fun d2 => x1 i d2 + (attnCall ops args b.self_attn L1
        (fun i2 => rmsNorm ops args.hidden_size args.rms_norm_eps b.input_layernorm (x1 i2))
        (maskFor L1) none).1 i d2) =
      (fun d2 => x2 i d2 + (attnCall ops args b.self_attn L2
        (fun i2 => rmsNorm ops args.hidden_size args.rms_norm_eps b.input_layernorm (x2 i2))
        (maskFor L2) none).1 i d2) := by
      funext d2
      rw [congrFun hx2 d2, congrFun hattn2 d2]
    rw [hh, congrFun hx2 d, congrFun hattn2 d]
  · intro h j hj
    exact hkv h j hj

/-- The fresh-call cache of a block has the input's sequence length. -/
theorem blockCall_none_len (ops : Ops) (args : ModelArgs) (b : BlockW) (L : ℕ)
    (x : Mat) (mask : Option Mask) :
    (blockCall ops args b L x mask none).2.n = L := Nat.zero_add L

/-- Incremental-decode agreement at the decoder block. -/
theorem blockCall_incr (ops : Ops) (args : ModelArgs) (b : BlockW) (L : ℕ)
    (hL : 2 ≤ L) (x x2 : Mat) (c : KVEntry)
    (hn : c.n = L - 1) (hlast : x2 0 = x (L - 1))
    (hck : ∀ h j, j < L - 1 →
        c.k h j = (blockCall ops args b L x (maskFor L) none).2.k h j ∧
        c.v h j = (blockCall ops args b L x (maskFor L) none).2.v h j) :
    (blockCall ops args b 1 x2 (maskFor 1) (some c)).1 0 =
      (blockCall ops args b L x (maskFor L) none).1 (L - 1) := by
  have hlast2 : (fun i2 => rmsNorm ops args.hidden_size args.rms_norm_eps b.input_layernorm (x2 i2)) 0 =
      (fun i2 => rmsNorm ops args.hidden_size args.rms_norm_eps b.input_layernorm (x i2)) (L - 1) := by
    show rmsNorm ops args.hidden_size args.rms_norm_eps b.input_layernorm (x2 0) =
      rmsNorm ops args.hidden_size args.rms_norm_eps b.input_layernorm (x (L - 1))
    rw [hlast]
  have hattn := attnCall_incr ops args b.self_attn L hL
    (fun i2 => rmsNorm ops args.hidden_size args.rms_norm_eps b.input_layernorm (x i2))
    (fun i2 => rmsNorm ops args.hidden_size args.rms_norm_eps b.input_layernorm (x2 i2))
    c hn hlast2 hck
  funext d
  show (x2 0 d + (attnCall ops args b.self_attn 1
      (fun i2 => rmsNorm ops args.hidden_size args.rms_norm_eps b.input_layernorm (x2 i2))
      (maskFor 1) (some c)).1 0 d) +
    feedForward ops args b.mlp
      (rmsNorm ops args.hidden_size args.rms_norm_eps b.post_attention_layernorm
        (fun d2 => x2 0 d2 + (attnCall ops args b.self_attn 1
          (fun i2 => rmsNorm ops args.hidden_size args.rms_norm_eps b.input_layernorm (x2 i2))
          (maskFor 1) (some c)).1 0 d2)) d =
    (x (L - 1) d + (attnCall ops args b.self_attn L
      (fun i2 => rmsNorm ops args.hidden_size args.rms_norm_eps b.input_layernorm (x i2))
      (maskFor L) none).1 (L - 1) d) +
    feedForward ops args b.mlp
      (rmsNorm ops args.hidden_size args.rms_norm_eps b.post_attention_layernorm
        (fun d2 => x (L - 1) d2 + (attnCall ops args b.self_attn L
          (fun i2 => rmsNorm ops args.hidden_size args.rms_norm_eps b.input_layernorm (x i2))
          (maskFor L) none).1 (L - 1) d2)) d
  have hh : (fun d2 => x2 0 d2 + (attnCall ops args b.self_attn 1
      (fun i2 => rmsNorm ops args.hidden_size args.rms_norm_eps b.input_layernorm (x2 i2))
      (maskFor 1) (some c)).1 0 d2) =
    (fun d2 => x (L - 1) d2 + (attnCall ops args b.self_attn L
      (fun i2 => rmsNorm ops args.hidden_size args.rms_norm_eps b.input_layernorm (x i2))
      (maskFor L) none).1 (L - 1) d2) := by
    funext d2
    rw [congrFun hlast d2, congrFun hattn d2]
  rw [hh, congrFun hlast d, congrFun hattn d]

/-- A cache list of `None`s behaves like the empty cache list: every layer
reads `None` either way. -/
theorem runLayers_replicate_none (ops : Ops) (args : ModelArgs)
    (layers : List BlockW) :
    ∀ (k L : ℕ) (x : Mat) (m : Option Mask),
    runLayers ops args layers (List.replicate k none) L x m =
      runLayers ops args layers [] L x m := by
  induction layers with
  | nil => intro k L x m; rfl
  | cons b bs ih =>
    intro k L x m
    cases k with
    | zero => rfl
    | succ k2 =>
      rw [runLayers_cons, runLayers_cons]
      simp only [List.replicate_succ, List.headD_cons, List.tail_cons,
        List.headD_nil, List.tail_nil]
      rw [ih k2]

/-- Prefix agreement through the whole layer stack: two fresh runs whose
embedded inputs agree on the first `m` positions agree on the first `m`
output positions and on the first `m` positions of every layer's returned
cache entry. -/
theorem runLayers_causal_agree (ops : Ops) (args : ModelArgs)
    (layers : List BlockW) (L1 L2 m : ℕ) :
    ∀ (x1 x2 : Mat), m ≤ L1 → m ≤ L2 → (∀ i, i < m → x1 i = x2 i) →
    (∀ i, i < m → (runLayers ops args layers [] L1 x1 (maskFor L1)).1 i =
        (runLayers ops args layers [] L2 x2 (maskFor L2)).1 i) ∧
    List.Forall₂ (fun c1 c2 => ∀ h j, j < m → c1.k h j = c2.k h j ∧ c1.v h j = c2.v h j)
      (runLayers ops args layers [] L1 x1 (maskFor L1)).2
      (runLayers ops args layers [] L2 x2 (maskFor L2)).2 := by
  induction layers with
  | nil =>
    intro x1 x2 hm1 hm2 hx
    exact ⟨fun i hi => hx i hi, List.Forall₂.nil⟩
  | cons b bs ih =>
    intro x1 x2 hm1 hm2 hx
    obtain ⟨hout, hkv⟩ := blockCall_causal_agree ops args b L1 L2 m x1 x2 hm1 hm2 hx
    obtain ⟨ihout, ihkv⟩ := ih (blockCall ops args b L1 x1 (maskFor L1) none).1
      (blockCall ops args b L2 x2 (maskFor L2) none).1 hm1 hm2 hout
    exact ⟨fun i hi => ihout i hi, List.Forall₂.cons hkv ihkv⟩

/-- Incremental-decode agreement through the whole layer stack: running
the single last token with the cache list produced by the first `L - 1`
positions reproduces the full run's hidden state at position `L - 1`. -/
theorem runLayers_incr (ops : Ops) (args : ModelArgs) (layers : List BlockW)
    (L : ℕ) (hL : 2 ≤ L) :
    ∀ (x x1 x2 : Mat),
    (∀ i, i < L - 1 → x1 i = x i) → x2 0 = x (L - 1) →
    (runLayers ops args layers
        ((runLayers ops args layers [] (L - 1) x1 (maskFor (L - 1))).2.map some)
        1 x2 (maskFor 1)).1 0 =
      (runLayers ops args layers [] L x (maskFor L)).1 (L - 1) := by
  induction layers with
  | nil =>
    intro x x1 x2 hpre hlast
    exact hlast
  | cons b bs ih =>
    intro x x1 x2 hpre hlast
    obtain ⟨hout, hkv⟩ := blockCall_causal_agree ops args b (L - 1) L (L - 1) x1 x
      (le_refl _) (by omega) hpre
    have hstep := blockCall_incr ops args b L hL x x2
      (blockCall ops args b (L - 1) x1 (maskFor (L - 1)) none).2
      (blockCall_none_len ops args b (L - 1) x1 (maskFor (L - 1)))
      hlast (fun h j hj => hkv h j hj)
    exact ih (blockCall ops args b L x (maskFor L) none).1
      (blockCall ops args b (L - 1) x1 (maskFor (L - 1)) none).1
      (blockCall ops args b 1 x2 (maskFor 1)
        (some (blockCall ops args b (L - 1) x1 (maskFor (L - 1)) none).2)).1
      hout hstep

/-- `getD` of a `take` agrees with the original list inside the taken
range. -/
theorem getD_take (l : List ℕ) : ∀ (n i : ℕ), i < n →
    (l.take n).getD i 0 = l.getD i 0 := by
  induction l with
  | nil =>
    intro n i hi
    cases n with
    | zero => omega
    | succ n2 => rfl
  | cons a l ih =>
    intro n i hi
    cases n with
    | zero => omega
    | succ n2 =>
      cases i with
      | zero => rfl
      | succ i2 => exact ih n2 i2 (by omega)

/-! ## C2: causal masking makes earlier positions independent of later ones -/

/-- C2: two fresh (cacheless) runs of the decoder stack over token
sequences of length `> 1` (so the internally built causal mask applies)
that agree on positions `0 .. i` produce identical logits at position `i`:
the output at position `i` is invariant under any modification of the
inputs — hence of the key/value contributions — at positions `j > i`. -/
theorem causal_mask_invariance (ops : Ops) (args : ModelArgs) (w : LlamaW)
    (ts1 ts2 : List ℕ) (i : ℕ)
    (h1 : 1 < ts1.length) (h2 : 1 < ts2.length)
    (hi1 : i < ts1.length) (hi2 : i < ts2.length)
    (hagree : ∀ j, j ≤ i → ts1.getD j 0 = ts2.getD j 0) :
    (llamaCall ops args w ts1 none none).1 i =
      (llamaCall ops args w ts2 none none).1 i := by
  have hx : ∀ j, j < i + 1 →
      (fun i2 => w.embed_tokens (ts1.getD i2 0)) j =
      (fun i2 => w.embed_tokens (ts2.getD i2 0)) j := by
    intro j hj
    show w.embed_tokens (ts1.getD j 0) = w.embed_tokens (ts2.getD j 0)
    rw [hagree j (by omega)]
  obtain ⟨hout, hkv⟩ := runLayers_causal_agree ops args w.layers
    ts1.length ts2.length (i + 1)
    (fun i2 => w.embed_tokens (ts1.getD i2 0))
    (fun i2 => w.embed_tokens (ts2.getD i2 0)) hi1 hi2 hx
  show linear w.lm_head args.hidden_size
      (rmsNorm ops args.hidden_size args.rms_norm_eps w.norm
        ((runLayers ops args w.layers (List.replicate w.layers.length none)
          ts1.length (fun i2 => w.embed_tokens (ts1.getD i2 0))
          (maskFor ts1.length)).1 i)) =
    linear w.lm_head args.hidden_size
      (rmsNorm ops args.hidden_size args.rms_norm_eps w.norm
        ((runLayers ops args w.layers (List.replicate w.layers.length none)
          ts2.length (fun i2 => w.embed_tokens (ts2.getD i2 0))
          (maskFor ts2.length)).1 i))
  rw [runLayers_replicate_none, runLayers_replicate_none, hout i (by omega)]

/-- Witness for C2: mutating the future position of `[5, 1]` to `[5, 2]`
leaves the position-0 logits unchanged. -/
theorem causal_mask_invariance_witness :
    (1 < ([5, 1] : List ℕ).length) ∧
    (∀ j, j ≤ 0 → ([5, 1] : List ℕ).getD j 0 = ([5, 2] : List ℕ).getD j 0) ∧
    (llamaCall opsW argsW wW [5, 1] none none).1 0 =
      (llamaCall opsW argsW wW [5, 2] none none).1 0 :=
  ⟨by decide, by decide,
   causal_mask_invariance opsW argsW wW [5, 1] [5, 2] 0 (by decide) (by decide)
     (by decide) (by decide) (by decide)⟩

/-! ## C1: KV-cache incremental decoding equivalence -/

/-- C1: for every config satisfying the stated invariants and every token
sequence of length `L ≥ 2`, running the decoder stack once over the full
sequence with no cache yields the same final-position logits as running it
once over the first `L - 1` tokens with no cache and then once more over
the last token with the returned cache.  (In the exact-arithmetic
idealization of the header, "within floating-point tolerance" is
equality.) -/
theorem kv_cache_incremental_equivalence (ops : Ops) (args : ModelArgs)
    (w : LlamaW) (hv : validConfig args) (ts : List ℕ) (hL : 2 ≤ ts.length) :
    (llamaCall ops args w ts none none).1 (ts.length - 1) =
      (llamaCall ops args w [ts.getD (ts.length - 1) 0] none
        (some (llamaCall ops args w (ts.take (ts.length - 1)) none none).2)).1 0 := by
  have hlen : (ts.take (ts.length - 1)).length = ts.length - 1 := by
    rw [List.length_take]
    omega
  have hpre : ∀ i2, i2 < ts.length - 1 →
      (fun i3 => w.embed_tokens ((ts.take (ts.length - 1)).getD i3 0)) i2 =
      (fun i3 => w.embed_tokens (ts.getD i3 0)) i2 := by
    intro i2 hi2
    show w.embed_tokens ((ts.take (ts.length - 1)).getD i2 0) =
      w.embed_tokens (ts.getD i2 0)
    rw [getD_take ts (ts.length - 1) i2 hi2]
  have hlast : (fun i3 => w.embed_tokens (([ts.getD (ts.length - 1) 0]).getD i3 0)) 0 =
      (fun i3 => w.embed_tokens (ts.getD i3 0)) (ts.length - 1) := rfl
  have hincr := runLayers_incr ops args w.layers ts.length hL
    (fun i3 => w.embed_tokens (ts.getD i3 0))
    (fun i3 => w.embed_tokens ((ts.take (ts.length - 1)).getD i3 0))
    (fun i3 => w.embed_tokens (([ts.getD (ts.length - 1) 0]).getD i3 0))
    hpre hlast
  show linear w.lm_head args.hidden_size
      (rmsNorm ops args.hidden_size args.rms_norm_eps w.norm
        ((runLayers ops args w.layers (List.replicate w.layers.length none)
          ts.length (fun i3 => w.embed_tokens (ts.getD i3 0))
          (maskFor ts.length)).1 (ts.length - 1))) =
    linear w.lm_head args.hidden_size
      (rmsNorm ops args.hidden_size args.rms_norm_eps w.norm
        ((runLayers ops args w.layers
          ((runLayers ops args w.layers (List.replicate w.layers.length none)
            (ts.take (ts.length - 1)).length
            (fun i3 => w.embed_tokens ((ts.take (ts.length - 1)).getD i3 0))
            (maskFor (ts.take (ts.length - 1)).length)).2.map some)
          1 (fun i3 => w.embed_tokens (([ts.getD (ts.length - 1) 0]).getD i3 0))
          (maskFor 1)).1 0))
  rw [runLayers_replicate_none, runLayers_replicate_none, hlen, hincr]

/-- Witness for C1 on the concrete prompt `[0, 1]` with the tiny valid
config `argsW`. -/
theorem kv_cache_incremental_equivalence_witness :
    validConfig argsW ∧ 2 ≤ ([0, 1] : List ℕ).length ∧
    (llamaCall opsW argsW wW [0, 1] none none).1 (([0, 1] : List ℕ).length - 1) =
      (llamaCall opsW argsW wW [([0, 1] : List ℕ).getD (([0, 1] : List ℕ).length - 1) 0] none
        (some (llamaCall opsW argsW wW (([0, 1] : List ℕ).take (([0, 1] : List ℕ).length - 1))
          none none).2)).1 0 :=
  ⟨by decide, by decide,
   kv_cache_incremental_equivalence opsW argsW wW (by decide) [0, 1] (by decide)⟩

/-! ## C9: the structure of the generation loop -/

/-- Every state the generator body produces carries `y = [tok]` and the
updated cache, and the yielded token is the sample of the final-position
logits of the step's forward pass. -/
theorem genStep_shape (ops : Ops) (args : ModelArgs) (w : LlamaW)
    (r2 : (ℕ → ℚ) → ℕ) (temp : ℚ) (s0 : GenState) (tok : ℕ) (s : GenState)
    (hts : genStep ops args w r2 temp s0 = some (tok, s)) :
    s.y = [tok] ∧
    s = ⟨[tok], some (llamaCall ops args w s0.y none s0.cache).2⟩ ∧
    tok = sample r2 temp args.vocab_size
      (fun t => (llamaCall ops args w s0.y none s0.cache).1 (s0.y.length - 1) t) := by
  have h := Option.some.inj hts
  rw [Prod.mk.injEq] at h
  obtain ⟨h1, h2⟩ := h
  have hs : s = ⟨[tok], some (llamaCall ops args w s0.y none s0.cache).2⟩ := by
    rw [← h2, h1]
  exact ⟨by rw [hs], hs, h1.symm⟩

/-- C9: the generation loop of `generate` never terminates of its own
accord (the trace is defined — `isSome` — at every step `n`); its first
step feeds the entire prompt with no cache and samples the logits at the
prompt's final position; and every step that produced token `tok` with
carried state `s` has `s.y = [tok]`, so the next step feeds exactly the
single most recently sampled token with the carried cache, samples the
logits at its only (final) position `0`, yields that token and threads the
updated cache. -/
theorem generation_loop_structure (ops : Ops) (args : ModelArgs) (w : LlamaW)
    (rand : ℕ → (ℕ → ℚ) → ℕ) (temp : ℚ) (prompt : List ℕ) :
    (∀ n, (genTrace ops args w rand temp prompt n).isSome = true) ∧
    (genTrace ops args w rand temp prompt 0 =
      some (sample (rand 0) temp args.vocab_size
          (fun t => (llamaCall ops args w prompt none none).1 (prompt.length - 1) t),
        ⟨[sample (rand 0) temp args.vocab_size
            (fun t => (llamaCall ops args w prompt none none).1 (prompt.length - 1) t)],
         some (llamaCall ops args w prompt none none).2⟩)) ∧
    (∀ n tok s, genTrace ops args w rand temp prompt n = some (tok, s) →
      s.y = [tok] ∧
      genTrace ops args w rand temp prompt (n + 1) =
        some (sample (rand (n + 1)) temp args.vocab_size
            (fun t => (llamaCall ops args w [tok] none s.cache).1 0 t),
          ⟨[sample (rand (n + 1)) temp args.vocab_size
              (fun t => (llamaCall ops args w [tok] none s.cache).1 0 t)],
           some (llamaCall ops args w [tok] none s.cache).2⟩)) := by
  have hshape : ∀ n tok s, genTrace ops args w rand temp prompt n = some (tok, s) →
      s.y = [tok] := by
    intro n
    cases n with
    | zero =>
      intro tok s hts
      exact (genStep_shape ops args w (rand 0) temp ⟨prompt, none⟩ tok s hts).1
    | succ n2 =>
      intro tok s hts
      cases hx : genTrace ops args w rand temp prompt n2 with
      | none =>
        have : genTrace ops args w rand temp prompt (n2 + 1) = none := by
          show Option.bind (genTrace ops args w rand temp prompt n2)
            (fun p => genStep ops args w (rand (n2 + 1)) temp p.2) = none
          rw [hx]
          rfl
        rw [this] at hts
        cases hts
      | some p =>
        have hstep : genStep ops args w (rand (n2 + 1)) temp p.2 = some (tok, s) := by
          have : genTrace ops args w rand temp prompt (n2 + 1) =
              genStep ops args w (rand (n2 + 1)) temp p.2 := by
            show Option.bind (genTrace ops args w rand temp prompt n2)
              (fun p2 => genStep ops args w (rand (n2 + 1)) temp p2.2) = _
            rw [hx]
            rfl
          rw [← this]
          exact hts
        exact (genStep_shape ops args w (rand (n2 + 1)) temp p.2 tok s hstep).1
  refine ⟨?_, rfl, ?_⟩
  · intro n
    induction n with
    | zero => rfl
    | succ n2 ih =>
      obtain ⟨p, hp⟩ := Option.isSome_iff_exists.mp ih
      show (Option.bind (genTrace ops args w rand temp prompt n2)
        (fun p2 => genStep ops args w (rand (n2 + 1)) temp p2.2)).isSome = true
      rw [hp]
      rfl
  · intro n tok s hts
    have hy : s.y = [tok] := hshape n tok s hts
    refine ⟨hy, ?_⟩
    have hnext : genTrace ops args w rand temp prompt (n + 1) =
        genStep ops args w (rand (n + 1)) temp s := by
      show Option.bind (genTrace ops args w rand temp prompt n)
        (fun p2 => genStep ops args w (rand (n + 1)) temp p2.2) = _
      rw [hts]
      rfl
    rw [hnext]
    show some (sample (rand (n + 1)) temp args.vocab_size
        (fun t => (llamaCall ops args w s.y none s.cache).1 (s.y.length - 1) t),
      (⟨[sample (rand (n + 1)) temp args.vocab_size
          (fun t => (llamaCall ops args w s.y none s.cache).1 (s.y.length - 1) t)],
       some (llamaCall ops args w s.y none s.cache).2⟩ : GenState)) =
      some (sample (rand (n + 1)) temp args.vocab_size
        (fun t => (llamaCall ops args w [tok] none s.cache).1 0 t),
      (⟨[sample (rand (n + 1)) temp args.vocab_size
          (fun t => (llamaCall ops args w [tok] none s.cache).1 0 t)],
       some (llamaCall ops args w [tok] none s.cache).2⟩ : GenState))
    simp only [hy, List.length_singleton, Nat.sub_self]

/-- Witness for C9: the recurrence at step 0 of a concrete zero-layer
model (so the trace evaluates by reduction). -/
theorem generation_loop_structure_witness :
    sW.y = [tokW] ∧
    genTrace opsW argsW0 wW0 randW 0 [5] 1 =
      some (sample (randW 1) 0 argsW0.vocab_size
          (fun t => (llamaCall opsW argsW0 wW0 [tokW] none sW.cache).1 0 t),
        ⟨[sample (randW 1) 0 argsW0.vocab_size
            (fun t => (llamaCall opsW argsW0 wW0 [tokW] none sW.cache).1 0 t)],
         some (llamaCall opsW argsW0 wW0 [tokW] none sW.cache).2⟩) :=
  (generation_loop_structure opsW argsW0 wW0 randW 0 [5]).2.2 0 tokW sW
    ((generation_loop_structure opsW argsW0 wW0 randW 0 [5]).2.1)
